import Mathlib

/-!
Verification of the manifest builder (scripts/generate-manifest.mjs).

The script scans configured directories of HTML fragment files, extracts a
heading and a description from each file via regex-based text extraction,
decodes a fixed set of HTML character entities, merges a configured explicit
file ordering with the alphabetically sorted remainder, and serializes the
resulting manifest as pretty-printed JSON.

Shallow embedding notes:
* Strings are Lean `String`/`List Char`; the regex operations of the script
  are implemented directly as scanners with the exact leftmost-match,
  greedy/lazy semantics of the JavaScript patterns used.
* The filesystem is a structure of three observation functions (`stat`,
  `readdir`, `readFile`); `none` from `stat` models an ENOENT failure and
  `none` from `readFile` models a read failure, matching the only failure
  modes the script distinguishes.
* Host-library behaviour that is not part of the repository is modelled and
  marked as such in doc comments: `localeCompare` (modelled as code-point
  lexicographic order), `path.join`/`path.relative`/`path.basename`/
  `path.extname` (modelled for plain POSIX-style arguments as used by the
  script), `String.prototype.toLowerCase` (modelled as ASCII lowercasing)
  and `JSON.stringify` with indent 2 (modelled by a concrete serializer).
-/

/-! ## Character and string utilities -/

/-- Case-insensitive character equality, modelling the `i` flag of the
JavaScript regexes (the tag names involved are ASCII). -/
def ciEq (a b : Char) : Bool := a.toLower == b.toLower

/-- `ciLead pat s` is true when `pat` is a case-insensitive leading segment
of `s`. -/
def ciLead : List Char → List Char → Bool
  | [], _ => true
  | _ :: _, [] => false
  | p :: ps, c :: cs => ciEq p c && ciLead ps cs

/-- `litLead pat s` is true when `pat` is a literal leading segment of `s`. -/
def litLead : List Char → List Char → Bool
  | [], _ => true
  | _ :: _, [] => false
  | p :: ps, c :: cs => (p == c) && litLead ps cs

/-- Drop characters up to and including the first `>`; `none` when there is
no `>` left.  This is the behaviour of the greedy `[^>]*>` part of the
opening-tag pattern. -/
def dropToGt : List Char → Option (List Char)
  | [] => none
  | c :: cs => if c == '>' then some cs else dropToGt cs

/-- Split the input at the first case-insensitive occurrence of `pat`,
returning the part before the occurrence and the part after it.  This is the
behaviour of the lazy capture `([\s\S]*?)` followed by a literal pattern. -/
def splitAtCI (pat : List Char) : List Char → Option (List Char × List Char)
  | [] => if ciLead pat [] then some ([], []) else none
  | c :: cs =>
    if ciLead pat (c :: cs) then some ([], List.drop pat.length (c :: cs))
    else
      match splitAtCI pat cs with
      | some pr => some (c :: pr.1, pr.2)
      | none => none

/-- Leftmost match of the pattern `<TAG[^>]*>([\s\S]*?)</TAG>` (flag `i`)
over the input, returning the capture group.  The scanner tries each start
position from the left and completes the whole match there or moves one
character right, exactly as the JavaScript regex engine does for this
pattern. -/
def firstTagMatchAux (tag : List Char) : List Char → Option (List Char)
  | [] => none
  | c :: cs =>
    if ciLead ('<' :: tag) (c :: cs) then
      match dropToGt (List.drop (tag.length + 1) (c :: cs)) with
      | some afterGt =>
        match splitAtCI ('<' :: '/' :: (tag ++ ['>'])) afterGt with
        | some pr => some pr.1
        | none => firstTagMatchAux tag cs
      | none => firstTagMatchAux tag cs
    else firstTagMatchAux tag cs

/-- The raw capture of the first `<tag ...> ... </tag>` match in `html`,
as in `html.match(new RegExp(...))` of `extractTextFromHtml`. -/
def firstTagMatch (html tag : String) : Option String :=
  (firstTagMatchAux tag.toList html.toList).map String.mk

/-- Given the characters after a `<`, recognize `[^>]+>` (at least one
non-`>` character, then the first `>`), returning the remainder after the
`>`.  Used for the global tag-stripping replacement `<[^>]+>`. -/
def tagEnd : List Char → Option (List Char)
  | [] => none
  | c :: cs => if c == '>' then none else dropToGt cs

/-- Fuel-indexed scanner for the global replacement of `<[^>]+>` by a single
space (`raw.replace(/<[^>]+>/g, ' ')`).  The fuel is an upper bound on the
number of scanning steps; each step consumes at least one character, so an
initial fuel equal to the input length is always sufficient. -/
def stripTagsAux : Nat → List Char → List Char
  | 0, cs => cs
  | _ + 1, [] => []
  | f + 1, c :: cs =>
    if c == '<' then
      match tagEnd cs with
      | some rest => ' ' :: stripTagsAux f rest
      | none => '<' :: stripTagsAux f cs
    else c :: stripTagsAux f cs

/-- Replace every maximal `<[^>]+>` span by a single space. -/
def stripTagsStr (s : String) : String :=
  String.mk (stripTagsAux s.toList.length s.toList)

/-- The character class `\s` of JavaScript regexes (whitespace, by code
point). -/
def isJsWs (c : Char) : Bool :=
  let n := c.toNat
  n == 9 || n == 10 || n == 11 || n == 12 || n == 13 || n == 32 ||
  n == 160 || n == 0x1680 || (0x2000 ≤ n && n ≤ 0x200a) ||
  n == 0x2028 || n == 0x2029 || n == 0x202f || n == 0x205f ||
  n == 0x3000 || n == 0xfeff

/-- Scanner for the global replacement `\s+` by a single space; the flag
records whether the previous character was part of a whitespace run. -/
def collapseGo : Bool → List Char → List Char
  | _, [] => []
  | inWs, c :: cs =>
    if isJsWs c then
      if inWs then collapseGo true cs else ' ' :: collapseGo true cs
    else c :: collapseGo false cs

/-- Collapse every run of whitespace to a single space
(`.replace(/\s+/g, ' ')`). -/
def collapseWs (s : String) : String :=
  String.mk (collapseGo false s.toList)

/-- JavaScript `String.prototype.trim`: remove leading and trailing
whitespace. -/
def jsTrim (s : String) : String :=
  String.mk (((s.toList.dropWhile isJsWs).reverse.dropWhile isJsWs).reverse)

/-- Fuel-indexed global literal replacement, as in
`text.replace(/LITERAL/g, rep)`: leftmost, non-overlapping, the replacement
text is not rescanned within one call.  An initial fuel equal to the input
length is sufficient because every step consumes at least one character. -/
def replAux : Nat → List Char → List Char → List Char → List Char
  | 0, _, _, cs => cs
  | _ + 1, _, _, [] => []
  | f + 1, pat, rep, c :: cs =>
    if litLead pat (c :: cs) && !pat.isEmpty then
      rep ++ replAux f pat rep (List.drop pat.length (c :: cs))
    else c :: replAux f pat rep cs

/-- Global literal replacement on strings. -/
def replaceAllStr (s pat rep : String) : String :=
  String.mk (replAux s.toList.length pat.toList rep.toList s.toList)

/-- `decodeHtmlEntities` of the script: six sequential global replacements,
with the ampersand entity replaced first. -/
def decodeHtmlEntities (text : String) : String :=
  replaceAllStr
    (replaceAllStr
      (replaceAllStr
        (replaceAllStr
          (replaceAllStr
            (replaceAllStr text "&amp;" "&")
            "&lt;" "<")
          "&gt;" ">")
        "&quot;" "\"")
      "&#39;" (String.singleton (Char.ofNat 39)))
    "&#96;" "`"

/-- `extractTextFromHtml` of the script: first case-insensitive match of
`<tagName[^>]*>([\s\S]*?)</tagName>`, empty string when there is no match;
otherwise the capture is tag-stripped, whitespace-collapsed, trimmed and
entity-decoded. -/
def extractTextFromHtml (html tagName : String) : String :=
  match firstTagMatch html tagName with
  | none => ""
  | some raw => decodeHtmlEntities (jsTrim (collapseWs (stripTagsStr raw)))

/-- The heading text of `buildFileEntry`:
`extractTextFromHtml(raw, 'h2') || extractTextFromHtml(raw, 'h1')`.
The JavaScript `||` falls through on the empty string, hence the emptiness
test rather than a match test. -/
def headingTextOf (raw : String) : String :=
  let h2t := extractTextFromHtml raw "h2"
  if h2t = "" then extractTextFromHtml raw "h1" else h2t

/-! ## Paths and identifiers -/

/-- Modelled: the project root computed by the script from its own location
(`path.resolve(__dirname, '..')`); an opaque-to-the-claims constant path. -/
def ROOT : String := "root"

/-- Modelled: `path.join` for the plain relative segments the script joins. -/
def joinPath (a b : String) : String := a ++ "/" ++ b

/-- `.replace(/\\/g, '/')`: normalize backslashes to forward slashes. -/
def slashify (s : String) : String :=
  String.mk (s.toList.map (fun c => if c == '\\' then '/' else c))

/-- Modelled: the fixed output path `ROOT/content/manifest.json`. -/
def OUTPUT_PATH : String := joinPath (joinPath ROOT "content") "manifest.json"

/-- Index of the last `.` of a filename, if any. -/
def lastDot : List Char → Option Nat
  | [] => none
  | c :: cs =>
    match lastDot cs with
    | some i => some (i + 1)
    | none => if c == '.' then some 0 else none

/-- Modelled: `path.basename(fileName, path.extname(fileName))` for a plain
filename: strip the final extension; a lone leading dot does not start an
extension (`path.extname` of a dotfile is empty). -/
def slugOf (fileName : String) : String :=
  match lastDot fileName.toList with
  | none => fileName
  | some 0 => fileName
  | some i => String.mk (fileName.toList.take i)

/-- Modelled: ASCII lowercasing, for `String.prototype.toLowerCase` on the
filenames the script compares. -/
def lowerStr (s : String) : String := String.mk (s.toList.map Char.toLower)

/-! ## Data model -/

/-- One directory entry as observed through `fs.readdir(..., withFileTypes)`:
a name and whether the entry is a regular file. -/
structure DirEnt where
  name : String
  isFile : Bool
deriving DecidableEq

/-- The filesystem as the script observes it.  `stat` returns `none` for a
missing path (ENOENT) and otherwise whether the path is a directory;
`readFile` returns `none` when the read fails. -/
structure FS where
  stat : String → Option Bool
  readdir : String → List DirEnt
  readFile : String → Option String

/-- A per-file override from the configuration: optional label and optional
description. -/
structure OverrideEntry where
  label : Option String
  description : Option String
deriving DecidableEq

/-- The normalized record produced per discovered file. -/
structure FileEntry where
  id : String
  label : String
  description : String
  path : String
deriving DecidableEq

/-- A configured child: a directory-backed grouping.  An absent `fileOrder`
or `overrides` in the JSON configuration is represented by the empty list,
matching the defaulting (`= []`, `?? {}`) in the script. -/
structure ChildConfig where
  id : String
  label : String
  description : String
  directory : String
  fileOrder : List String
  overrides : List (String × OverrideEntry)

/-- A configured collection: a label and its children. -/
structure CollectionConfig where
  label : String
  children : List ChildConfig

/-- The parsed configuration.  JSON parsing itself is not modelled; the
configuration is taken as already loaded. -/
structure Config where
  previewTitle : String
  previewDescription : String
  collections : List CollectionConfig

/-- One child of the output manifest. -/
structure ChildOut where
  id : String
  label : String
  description : String
  files : List FileEntry
deriving DecidableEq

/-- One collection of the output manifest. -/
structure CollectionOut where
  label : String
  children : List ChildOut
deriving DecidableEq

/-- The output manifest value. -/
structure Manifest where
  previewTitle : String
  previewDescription : String
  collections : List CollectionOut
deriving DecidableEq

/-! ## The pipeline -/

/-- `ensureDirectoryExists`: ENOENT becomes `Directory not found`, an
existing non-directory becomes `is not a directory` (the script throws that
error inside the `try`, and the `catch` rethrows it because its `code` is
not `ENOENT`). -/
def ensureDirectoryExists (fs : FS) (dir : String) : Except String Unit :=
  match fs.stat dir with
  | none => Except.error ("Directory not found: " ++ dir)
  | some false => Except.error (dir ++ " is not a directory")
  | some true => Except.ok ()

/-- `listHtmlFiles`: immediate entries that are files whose lowercased name
ends in `.html`. -/
def listHtmlFiles (fs : FS) (dir : String) : List String :=
  ((fs.readdir dir).filter
    (fun e => e.isFile && (lowerStr e.name).endsWith ".html")).map DirEnt.name

/-- `overrides[slug] ?? {}` of the script: look up the override by the file
identifier, defaulting to the empty override. -/
def getOverride (ov : List (String × OverrideEntry)) (slug : String) :
    OverrideEntry :=
  (List.lookup slug ov).getD ⟨none, none⟩

/-- `buildFileEntry` of the script.  `dir` is the absolute directory,
`relDir` its root-relative form (the script computes it as
`path.relative(ROOT, dir)`, which for `dir = joinPath ROOT relDir` is
`relDir`).  Note that the `?? slug` alternative of the script
(`override.label ?? headingText ?? slug`) is unreachable: `headingText` is
always a string, never nullish, so the embedding is
`label := o.label.getD headingText`. -/
def buildFileEntry (fs : FS) (dir relDir fileName : String)
    (overrides : List (String × OverrideEntry)) : Except String FileEntry :=
  match fs.readFile (joinPath dir fileName) with
  | none => Except.error ("Cannot read file: " ++ joinPath dir fileName)
  | some raw =>
    let headingText := headingTextOf raw
    let descriptionText := extractTextFromHtml raw "p"
    let slug := slugOf fileName
    let o := getOverride overrides slug
    Except.ok
      { id := slug
        label := o.label.getD headingText
        description := o.description.getD descriptionText
        path := slashify (joinPath relDir fileName) }

/-- Insertion-order deduplication with an accumulator of already seen names;
`dedupAux seen l` drops the elements of `l` that occur in `seen` or earlier
in `l`. -/
def dedupAux (seen : List String) : List String → List String
  | [] => []
  | x :: xs =>
    if x ∈ seen then dedupAux seen xs else x :: dedupAux (x :: seen) xs

/-- Modelled: `new Set(files)` keeps one occurrence of each name (the
directory listing never repeats a name, so this is the identity in every
actual call). -/
def dedupFirst (l : List String) : List String := dedupAux [] l

/-- The `fileOrder` loop of `orderFiles`: walk the configured order, moving
each name that is still in `existing` to the ordered part and deleting it
from `existing`.  Returns the ordered part and the remaining set. -/
def pickOrdered : List String → List String → List String × List String
  | [], ex => ([], ex)
  | n :: rest, ex =>
    if n ∈ ex then
      let p := pickOrdered rest (ex.erase n)
      (n :: p.1, p.2)
    else pickOrdered rest ex

/-- `orderFiles` of the script: configured names that exist, in configured
order, followed by the remaining names sorted.  The sort comparator
`(a, b) => a.localeCompare(b)` is modelled as code-point lexicographic
order (the `String` linear order); `Array.prototype.sort` with a consistent
total comparator is modelled by insertion sort. -/
def orderFiles (files fileOrder : List String) : List String :=
  let p := pickOrdered fileOrder (dedupFirst files)
  p.1 ++ List.insertionSort (· ≤ ·) p.2

/-- The per-child file loop of `buildManifest`: build one entry per ordered
filename, stopping at the first failure. -/
def processFiles (fs : FS) (dir relDir : String)
    (overrides : List (String × OverrideEntry)) :
    List String → Except String (List FileEntry)
  | [] => Except.ok []
  | n :: rest =>
    match buildFileEntry fs dir relDir n overrides with
    | Except.error e => Except.error e
    | Except.ok entry =>
      match processFiles fs dir relDir overrides rest with
      | Except.error e => Except.error e
      | Except.ok entries => Except.ok (entry :: entries)

/-- The per-child body of `buildManifest`: validate the directory, list the
HTML files, order them, and build the file entries. -/
def processChild (fs : FS) (child : ChildConfig) : Except String ChildOut :=
  match ensureDirectoryExists fs (joinPath ROOT child.directory) with
  | Except.error e => Except.error e
  | Except.ok _ =>
    match processFiles fs (joinPath ROOT child.directory) child.directory
        child.overrides
        (orderFiles (listHtmlFiles fs (joinPath ROOT child.directory))
          child.fileOrder) with
    | Except.error e => Except.error e
    | Except.ok files =>
      Except.ok
        { id := child.id
          label := child.label
          description := child.description
          files := files }

/-- The child loop of `buildManifest`, stopping at the first failure. -/
def processChildren (fs : FS) :
    List ChildConfig → Except String (List ChildOut)
  | [] => Except.ok []
  | c :: rest =>
    match processChild fs c with
    | Except.error e => Except.error e
    | Except.ok out =>
      match processChildren fs rest with
      | Except.error e => Except.error e
      | Except.ok outs => Except.ok (out :: outs)

/-- The per-collection body of `buildManifest`. -/
def processColl (fs : FS) (c : CollectionConfig) :
    Except String CollectionOut :=
  match processChildren fs c.children with
  | Except.error e => Except.error e
  | Except.ok children => Except.ok { label := c.label, children := children }

/-- The collection loop of `buildManifest`, stopping at the first failure. -/
def processColls (fs : FS) :
    List CollectionConfig → Except String (List CollectionOut)
  | [] => Except.ok []
  | c :: rest =>
    match processColl fs c with
    | Except.error e => Except.error e
    | Except.ok out =>
      match processColls fs rest with
      | Except.error e => Except.error e
      | Except.ok outs => Except.ok (out :: outs)

/-- `buildManifest` of the script, over an already-loaded configuration. -/
def buildManifest (fs : FS) (config : Config) : Except String Manifest :=
  match processColls fs config.collections with
  | Except.error e => Except.error e
  | Except.ok colls =>
    Except.ok
      { previewTitle := config.previewTitle
        previewDescription := config.previewDescription
        collections := colls }

/-! ## Serialization (modelled `JSON.stringify(manifest, null, 2)`) -/

/-- Lowercase hexadecimal digit. -/
def hexDigit (n : Nat) : Char :=
  if n < 10 then Char.ofNat (48 + n) else Char.ofNat (87 + n)

/-- Modelled: the JSON string escaping of `JSON.stringify`. -/
def escChar (c : Char) : List Char :=
  if c == '"' then ['\\', '"']
  else if c == '\\' then ['\\', '\\']
  else if c == '\n' then ['\\', 'n']
  else if c == '\r' then ['\\', 'r']
  else if c == '\t' then ['\\', 't']
  else if c.toNat == 8 then ['\\', 'b']
  else if c.toNat == 12 then ['\\', 'f']
  else if c.toNat < 32 then
    ['\\', 'u', hexDigit (c.toNat / 4096 % 16), hexDigit (c.toNat / 256 % 16),
      hexDigit (c.toNat / 16 % 16), hexDigit (c.toNat % 16)]
  else [c]

/-- Escape a string for JSON output. -/
def escapeJson (s : String) : String :=
  String.mk (s.toList.foldr (fun c acc => escChar c ++ acc) [])

/-- A JSON string literal. -/
def jstr (s : String) : String := "\"" ++ escapeJson s ++ "\""

/-- A pretty-printed JSON array at the given indentation, matching the
layout of `JSON.stringify` with indent 2 (an empty array prints as `[]`). -/
def jarr (ind : String) (items : List String) : String :=
  match items with
  | [] => "[]"
  | _ =>
    "[\n" ++ String.intercalate ",\n" (items.map (fun it => ind ++ "  " ++ it))
      ++ "\n" ++ ind ++ "]"

/-- Pretty-printed JSON object for a file entry, key order as inserted by
the script. -/
def fileEntryJson (ind : String) (e : FileEntry) : String :=
  "\x7b\n" ++
  ind ++ "  " ++ jstr "id" ++ ": " ++ jstr e.id ++ ",\n" ++
  ind ++ "  " ++ jstr "label" ++ ": " ++ jstr e.label ++ ",\n" ++
  ind ++ "  " ++ jstr "description" ++ ": " ++ jstr e.description ++ ",\n" ++
  ind ++ "  " ++ jstr "path" ++ ": " ++ jstr e.path ++ "\n" ++
  ind ++ "\x7d"

/-- Pretty-printed JSON object for a manifest child. -/
def childJson (ind : String) (ch : ChildOut) : String :=
  "\x7b\n" ++
  ind ++ "  " ++ jstr "id" ++ ": " ++ jstr ch.id ++ ",\n" ++
  ind ++ "  " ++ jstr "label" ++ ": " ++ jstr ch.label ++ ",\n" ++
  ind ++ "  " ++ jstr "description" ++ ": " ++ jstr ch.description ++ ",\n" ++
  ind ++ "  " ++ jstr "files" ++ ": " ++
    jarr (ind ++ "  ") (ch.files.map (fileEntryJson (ind ++ "    "))) ++ "\n" ++
  ind ++ "\x7d"

/-- Pretty-printed JSON object for a manifest collection. -/
def collectionJson (ind : String) (c : CollectionOut) : String :=
  "\x7b\n" ++
  ind ++ "  " ++ jstr "label" ++ ": " ++ jstr c.label ++ ",\n" ++
  ind ++ "  " ++ jstr "children" ++ ": " ++
    jarr (ind ++ "  ") (c.children.map (childJson (ind ++ "    "))) ++ "\n" ++
  ind ++ "\x7d"

/-- Modelled: `JSON.stringify(manifest, null, 2)`, key order as inserted. -/
def stringifyManifest (m : Manifest) : String :=
  "\x7b\n  " ++ jstr "previewTitle" ++ ": " ++ jstr m.previewTitle ++ ",\n  " ++
  jstr "previewDescription" ++ ": " ++ jstr m.previewDescription ++ ",\n  " ++
  jstr "collections" ++ ": " ++
    jarr "  " (m.collections.map (collectionJson "    ")) ++ "\n\x7d"

/-- `writeManifest` of the script: the exact byte payload written to the
output file, the stringified manifest followed by one newline. -/
def writeManifest (m : Manifest) : String := stringifyManifest m ++ "\n"

/-- `main` up to the write: on success the payload that gets written, on
failure the propagated error (the catch handler prints it and sets a
non-zero exit code without writing). -/
def runBuild (fs : FS) (config : Config) : Except String String :=
  match buildManifest fs config with
  | Except.error e => Except.error e
  | Except.ok m => Except.ok (writeManifest m)

/-- The content of the output file after a run, given its previous content
(`none` when the file did not exist): the write is the final step of the
run, so on any failure the previous content is untouched. -/
def outputAfterRun (fs : FS) (config : Config) (prev : Option String) :
    Option String :=
  match runBuild fs config with
  | Except.ok payload => some payload
  | Except.error _ => prev

/-- A configured child directory is missing (ENOENT) or not a directory. -/
def dirInvalid (fs : FS) (dir : String) : Prop :=
  fs.stat dir = none ∨ fs.stat dir = some false

instance (fs : FS) (dir : String) : Decidable (dirInvalid fs dir) := by
  unfold dirInvalid; infer_instance

/-! ## Helper lemmas -/

theorem dedupAux_eq_self :
    ∀ (l seen : List String), l.Nodup → (∀ x ∈ l, x ∉ seen) →
      dedupAux seen l = l := by
  intro l
  induction l with
  | nil => intro seen _ _; rfl
  | cons x xs ih =>
    intro seen hnd hd
    have hx : x ∉ seen := hd x (List.mem_cons_self x xs)
    rw [dedupAux, if_neg hx]
    congr 1
    apply ih (x :: seen) (List.nodup_cons.mp hnd).2
    intro y hy
    simp only [List.mem_cons, not_or]
    exact ⟨fun h => (List.nodup_cons.mp hnd).1 (h ▸ hy),
      hd y (List.mem_cons_of_mem x hy)⟩

theorem dedupFirst_eq_self {l : List String} (h : l.Nodup) :
    dedupFirst l = l :=
  dedupAux_eq_self l [] h (by simp)

theorem dedupAux_sub :
    ∀ (l seen : List String), ∀ x ∈ dedupAux seen l, x ∈ l := by
  intro l
  induction l with
  | nil => intro seen x hx; simp [dedupAux] at hx
  | cons y ys ih =>
    intro seen x hx
    rw [dedupAux] at hx
    by_cases hy : y ∈ seen
    · rw [if_pos hy] at hx
      exact List.mem_cons_of_mem y (ih seen x hx)
    · rw [if_neg hy] at hx
      rcases List.mem_cons.mp hx with rfl | hx'
      · exact List.mem_cons_self x ys
      · exact List.mem_cons_of_mem y (ih (y :: seen) x hx')

theorem pickOrdered_eq :
    ∀ (ord ex : List String), ord.Nodup → ex.Nodup →
      pickOrdered ord ex =
        (ord.filter (fun n => decide (n ∈ ex)),
          ex.filter (fun x => decide (x ∉ ord))) := by
  intro ord
  induction ord with
  | nil =>
    intro ex _ _
    simp [pickOrdered]
  | cons n rest ih =>
    intro ex ho he
    have hn : n ∉ rest := (List.nodup_cons.mp ho).1
    have hrest : rest.Nodup := (List.nodup_cons.mp ho).2
    by_cases hmem : n ∈ ex
    · simp only [pickOrdered, if_pos hmem]
      rw [ih (ex.erase n) hrest (he.erase n)]
      rw [List.filter_cons_of_pos (by simpa using hmem)]
      simp only [Prod.mk.injEq]
      constructor
      · congr 1
        apply List.filter_congr
        intro x hx
        have hxn : x ≠ n := fun hcontra => hn (hcontra ▸ hx)
        simp [List.mem_erase_of_ne hxn]
      · rw [he.erase_eq_filter n, List.filter_filter]
        apply List.filter_congr
        intro x _
        by_cases hxn : x = n <;> by_cases hxr : x ∈ rest <;>
          simp [hxn, hxr]
    · simp only [pickOrdered, if_neg hmem]
      rw [ih ex hrest he]
      rw [List.filter_cons_of_neg (by simpa using hmem)]
      simp only [Prod.mk.injEq]
      constructor
      · trivial
      · apply List.filter_congr
        intro x hx
        have hxn : x ≠ n := fun hcontra => hmem (hcontra ▸ hx)
        simp [hxn]

theorem pick_fst_sub :
    ∀ (ord ex : List String), ∀ x ∈ (pickOrdered ord ex).1, x ∈ ex := by
  intro ord
  induction ord with
  | nil => intro ex x hx; simp [pickOrdered] at hx
  | cons n rest ih =>
    intro ex x hx
    by_cases hmem : n ∈ ex
    · simp only [pickOrdered, if_pos hmem] at hx
      rcases List.mem_cons.mp hx with rfl | hx'
      · exact hmem
      · exact List.erase_subset n ex (ih (ex.erase n) x hx')
    · simp only [pickOrdered, if_neg hmem] at hx
      exact ih ex x hx

theorem pick_snd_sub :
    ∀ (ord ex : List String), ∀ x ∈ (pickOrdered ord ex).2, x ∈ ex := by
  intro ord
  induction ord with
  | nil => intro ex x hx; simpa [pickOrdered] using hx
  | cons n rest ih =>
    intro ex x hx
    by_cases hmem : n ∈ ex
    · simp only [pickOrdered, if_pos hmem] at hx
      exact List.erase_subset n ex (ih (ex.erase n) x hx)
    · simp only [pickOrdered, if_neg hmem] at hx
      exact ih ex x hx

theorem pick_filter (files : List String) :
    ∀ (ord ex : List String), (∀ x ∈ ex, x ∈ files) →
      pickOrdered ord ex =
        pickOrdered (ord.filter (fun m => decide (m ∈ files))) ex := by
  intro ord
  induction ord with
  | nil => intro ex _; rfl
  | cons m rest ih =>
    intro ex hsub
    by_cases hm : m ∈ ex
    · have hmf : m ∈ files := hsub m hm
      rw [List.filter_cons_of_pos (by simpa using hmf)]
      simp only [pickOrdered, if_pos hm]
      rw [ih (ex.erase m) (fun x hx => hsub x (List.erase_subset m ex hx))]
    · by_cases hmf : m ∈ files
      · rw [List.filter_cons_of_pos (by simpa using hmf)]
        simp only [pickOrdered, if_neg hm]
        exact ih ex hsub
      · rw [List.filter_cons_of_neg (by simpa using hmf)]
        simp only [pickOrdered, if_neg hm]
        exact ih ex hsub

/-! ## Error-propagation lemmas -/

theorem ensure_err (fs : FS) (dir : String) (h : dirInvalid fs dir) :
    ∃ e, ensureDirectoryExists fs dir = Except.error e := by
  rcases h with h | h
  · exact ⟨"Directory not found: " ++ dir, by simp [ensureDirectoryExists, h]⟩
  · exact ⟨dir ++ " is not a directory", by simp [ensureDirectoryExists, h]⟩

theorem processChild_err (fs : FS) (child : ChildConfig)
    (h : dirInvalid fs (joinPath ROOT child.directory)) :
    ∃ e, processChild fs child = Except.error e := by
  obtain ⟨e, he⟩ := ensure_err fs (joinPath ROOT child.directory) h
  exact ⟨e, by simp [processChild, he]⟩

theorem processChildren_err (fs : FS) :
    ∀ (l : List ChildConfig),
      (∃ ch ∈ l, dirInvalid fs (joinPath ROOT ch.directory)) →
      ∃ e, processChildren fs l = Except.error e := by
  intro l
  induction l with
  | nil =>
    rintro ⟨ch, hm, _⟩
    simp at hm
  | cons c rest ih =>
    rintro ⟨ch, hm, hbad⟩
    rcases List.mem_cons.mp hm with rfl | htail
    · obtain ⟨e, he⟩ := processChild_err fs ch hbad
      exact ⟨e, by simp [processChildren, he]⟩
    · cases hc : processChild fs c with
      | error e => exact ⟨e, by simp [processChildren, hc]⟩
      | ok out =>
        obtain ⟨e, he⟩ := ih ⟨ch, htail, hbad⟩
        exact ⟨e, by simp [processChildren, hc, he]⟩

theorem processColl_err (fs : FS) (c : CollectionConfig)
    (h : ∃ ch ∈ c.children, dirInvalid fs (joinPath ROOT ch.directory)) :
    ∃ e, processColl fs c = Except.error e := by
  obtain ⟨e, he⟩ := processChildren_err fs c.children h
  exact ⟨e, by simp [processColl, he]⟩

theorem processColls_err (fs : FS) :
    ∀ (l : List CollectionConfig),
      (∃ coll ∈ l, ∃ ch ∈ coll.children,
        dirInvalid fs (joinPath ROOT ch.directory)) →
      ∃ e, processColls fs l = Except.error e := by
  intro l
  induction l with
  | nil =>
    rintro ⟨coll, hm, _⟩
    simp at hm
  | cons c rest ih =>
    rintro ⟨coll, hm, hbad⟩
    rcases List.mem_cons.mp hm with rfl | htail
    · obtain ⟨e, he⟩ := processColl_err fs coll hbad
      exact ⟨e, by simp [processColls, he]⟩
    · cases hc : processColl fs c with
      | error e => exact ⟨e, by simp [processColls, hc]⟩
      | ok out =>
        obtain ⟨e, he⟩ := ih ⟨coll, htail, hbad⟩
        exact ⟨e, by simp [processColls, hc, he]⟩

/-! ## Concrete fixtures used by witnesses and counterexamples -/

/-- The HTML fragment of the C4 example. -/
def exampleFragment : String :=
  "<h2>Hello &amp; World</h2><p>A <b>bold</b> test.</p>"

/-- A fragment whose first h2 element matches but has empty content. -/
def h2EmptyFragment : String := "<h2></h2><h1>Title</h1>"

/-- A fragment with only a primary heading and no paragraph. -/
def onlyH1Fragment : String := "<h1>Title</h1>"

/-- A fragment with no heading at all. -/
def rawNoHeading : String := "<p>Some text.</p>"

/-- A filesystem with one readable HTML file that has no heading. -/
def fsNoHeading : FS :=
  { stat := fun _ => some true
    readdir := fun _ => [⟨"myfile.html", true⟩]
    readFile := fun p =>
      if p == "root/docs/myfile.html" then some rawNoHeading else none }

/-- A fragment whose extracted heading is the string Original. -/
def rawOverride : String := "<h2>Original</h2><p>Desc.</p>"

/-- A filesystem with one readable HTML file whose heading is Original. -/
def fsOverride : FS :=
  { stat := fun _ => some true
    readdir := fun _ => [⟨"myfile.html", true⟩]
    readFile := fun p =>
      if p == "root/docs/myfile.html" then some rawOverride else none }

/-- An overrides mapping that supplies only a label for the file myfile. -/
def ovOverride : List (String × OverrideEntry) :=
  [("myfile", ⟨some "Custom", none⟩)]

/-- A child configuration pointing at a directory that will not exist. -/
def childMissing : ChildConfig :=
  { id := "c", label := "C", description := "", directory := "missing"
    fileOrder := [], overrides := [] }

/-- A collection containing the missing-directory child. -/
def collMissing : CollectionConfig :=
  { label := "Docs", children := [childMissing] }

/-- A configuration containing the missing-directory collection. -/
def cfgMissing : Config :=
  { previewTitle := "T", previewDescription := "D"
    collections := [collMissing] }

/-- A filesystem on which every stat fails with ENOENT. -/
def fsMissing : FS :=
  { stat := fun _ => none, readdir := fun _ => [], readFile := fun _ => none }

/-- One of two identical filesystems for the determinism witness. -/
def fsIdemA : FS :=
  { stat := fun _ => some true, readdir := fun _ => [], readFile := fun _ => none }

/-- The other of two identical filesystems for the determinism witness. -/
def fsIdemB : FS :=
  { stat := fun _ => some true, readdir := fun _ => [], readFile := fun _ => none }

/-- An empty configuration for the determinism witness. -/
def cfgIdem : Config :=
  { previewTitle := "T", previewDescription := "D", collections := [] }

/-! ## Claims -/

/-- C1: for distinct discovered filenames and a duplicate-free configured
`fileOrder`, the output of `orderFiles` is exactly: the `fileOrder` names
that are among the discovered files, in `fileOrder` order, followed by a
block that is a permutation of the remaining discovered names and is sorted
lexicographically ascending (so every listed-and-present name comes before
every non-listed name). -/
theorem orderFiles_claim (files ord : List String)
    (hf : files.Nodup) (ho : ord.Nodup) :
    ∃ rest, orderFiles files ord =
        ord.filter (fun n => decide (n ∈ files)) ++ rest ∧
      rest.Perm (files.filter (fun n => decide (n ∉ ord))) ∧
      List.Sorted (fun a b : String => a ≤ b) rest := by
  refine ⟨List.insertionSort (· ≤ ·)
      (files.filter (fun n => decide (n ∉ ord))),
    ?_, List.perm_insertionSort _ _, List.sorted_insertionSort _ _⟩
  simp only [orderFiles]
  rw [dedupFirst_eq_self hf, pickOrdered_eq ord files ho hf]

/-- C1 witness: a concrete instance of `orderFiles_claim`. -/
theorem orderFiles_claim_witness :
    ∃ rest, orderFiles ["b.html", "a.html", "c.html"] ["c.html", "x.html"] =
        (["c.html", "x.html"].filter
          (fun n => decide (n ∈ ["b.html", "a.html", "c.html"]))) ++ rest ∧
      rest.Perm (["b.html", "a.html", "c.html"].filter
        (fun n => decide (n ∉ ["c.html", "x.html"]))) ∧
      List.Sorted (fun a b : String => a ≤ b) rest :=
  orderFiles_claim ["b.html", "a.html", "c.html"] ["c.html", "x.html"]
    (by decide) (by decide)

/-- C2: the claim says the label falls back to the identifier when neither
an override nor heading extraction yields one; the script instead produces
the empty string, because in `override.label ?? headingText ?? slug` the
value `headingText` is always a string, so `?? slug` never fires.  This
theorem evaluates the script on the failing input: a file `myfile.html`
with no heading and no override gets label `""`, not `"myfile"`. -/
theorem buildFileEntry_no_heading_label :
    buildFileEntry fsNoHeading "root/docs" "docs" "myfile.html" [] =
      Except.ok
        { id := "myfile", label := "", description := "Some text."
          path := "docs/myfile.html" } ∧
    "" ≠ "myfile" := by
  constructor
  · rfl
  · decide

/-- C3: if any configured child directory is missing or not a directory,
the whole run fails (whatever else the configuration contains) and the
output file keeps its previous content. -/
theorem directory_error_aborts (fs : FS) (config : Config)
    (prev : Option String)
    (h : ∃ coll ∈ config.collections, ∃ ch ∈ coll.children,
        dirInvalid fs (joinPath ROOT ch.directory)) :
    (∃ e, runBuild fs config = Except.error e) ∧
      outputAfterRun fs config prev = prev := by
  obtain ⟨e, he⟩ := processColls_err fs config.collections h
  have hrun : runBuild fs config = Except.error e := by
    simp [runBuild, buildManifest, he]
  exact ⟨⟨e, hrun⟩, by simp [outputAfterRun, hrun]⟩

/-- C3 witness: a concrete missing directory aborts the concrete run and
leaves the previous output content in place. -/
theorem directory_error_aborts_witness :
    (∃ e, runBuild fsMissing cfgMissing = Except.error e) ∧
      outputAfterRun fsMissing cfgMissing (some "previous") =
        some "previous" :=
  directory_error_aborts fsMissing cfgMissing (some "previous")
    ⟨collMissing, by simp [cfgMissing], childMissing,
      by simp [collMissing], Or.inl rfl⟩

/-- C4: whenever the tag pattern matches, the extracted text is the raw
capture with inline tags removed, whitespace runs collapsed to one space,
ends trimmed, and the six named character references decoded, in that
order; and on the example fragment the label is `Hello & World` and the
description is `A bold test.`. -/
theorem extract_postprocessing_claim :
    (∀ html tag raw, firstTagMatch html tag = some raw →
        extractTextFromHtml html tag =
          decodeHtmlEntities (jsTrim (collapseWs (stripTagsStr raw)))) ∧
      extractTextFromHtml exampleFragment "h2" = "Hello & World" ∧
      extractTextFromHtml exampleFragment "p" = "A bold test." := by
  refine ⟨?_, by decide, by decide⟩
  intro html tag raw h
  simp [extractTextFromHtml, h]

/-- C4 witness: the post-processing equation instantiated on the example
fragment and its h2 capture. -/
theorem extract_postprocessing_claim_witness :
    extractTextFromHtml exampleFragment "h2" =
      decodeHtmlEntities
        (jsTrim (collapseWs (stripTagsStr "Hello &amp; World"))) :=
  extract_postprocessing_claim.1 exampleFragment "h2" "Hello &amp; World"
    (by decide)

/-- C5 counterexample: the claim says only a failure of the h2 pattern to
match makes extraction use h1; but on `<h2></h2><h1>Title</h1>` the h2
pattern matches (with empty capture) and the heading nevertheless comes
from h1, because the script's `||` falls through on the empty string. -/
theorem heading_h2_match_not_used :
    firstTagMatch h2EmptyFragment "h2" = some "" ∧
      headingTextOf h2EmptyFragment ≠
        extractTextFromHtml h2EmptyFragment "h2" := by
  constructor
  · decide
  · decide

/-- C5 (amended): the heading is the h2 extraction whenever that extraction
is a nonempty string, and is the h1 extraction whenever the h2 extraction
is empty (no h2 match, or a match whose processed text is empty); when no
paragraph matches the description is the empty string; and a fragment with
only `<h1>Title</h1>` yields label `Title` and description empty. -/
theorem heading_fallback_claim :
    (∀ html : String,
        (extractTextFromHtml html "h2" ≠ "" →
          headingTextOf html = extractTextFromHtml html "h2") ∧
        (extractTextFromHtml html "h2" = "" →
          headingTextOf html = extractTextFromHtml html "h1") ∧
        (firstTagMatch html "p" = none →
          extractTextFromHtml html "p" = "")) ∧
      headingTextOf onlyH1Fragment = "Title" ∧
      extractTextFromHtml onlyH1Fragment "p" = "" := by
  refine ⟨?_, by decide, by decide⟩
  intro html
  refine ⟨?_, ?_, ?_⟩
  · intro h
    simp [headingTextOf, h]
  · intro h
    simp [headingTextOf, h]
  · intro h
    simp [extractTextFromHtml, h]

/-- C5 witness: the amended fallback rule instantiated on the fragment with
an empty h2 element. -/
theorem heading_fallback_claim_witness :
    headingTextOf h2EmptyFragment =
      extractTextFromHtml h2EmptyFragment "h1" :=
  (heading_fallback_claim.1 h2EmptyFragment).2.1 (by decide)

/-- C6: when an override entry exists for the file identifier, an
override-supplied label or description wins, and a field absent from the
override keeps the extracted value. -/
theorem override_precedence_claim (fs : FS) (dir relDir fileName : String)
    (ov : List (String × OverrideEntry)) (raw : String) (o : OverrideEntry)
    (hread : fs.readFile (joinPath dir fileName) = some raw)
    (hov : List.lookup (slugOf fileName) ov = some o) :
    ∃ entry, buildFileEntry fs dir relDir fileName ov = Except.ok entry ∧
      (∀ l, o.label = some l → entry.label = l) ∧
      (o.label = none → entry.label = headingTextOf raw) ∧
      (∀ d, o.description = some d → entry.description = d) ∧
      (o.description = none →
        entry.description = extractTextFromHtml raw "p") := by
  refine ⟨{ id := slugOf fileName
            label := o.label.getD (headingTextOf raw)
            description := o.description.getD (extractTextFromHtml raw "p")
            path := slashify (joinPath relDir fileName) },
    ?_, ?_, ?_, ?_, ?_⟩
  · simp [buildFileEntry, hread, getOverride, hov]
  · intro l hl
    simp [hl]
  · intro hl
    simp [hl]
  · intro d hd
    simp [hd]
  · intro hd
    simp [hd]

/-- C6 witness: an override with only a label set gives label `Custom`
while the description stays the extracted `Desc.`. -/
theorem override_precedence_claim_witness :
    ∃ entry, buildFileEntry fsOverride "root/docs" "docs" "myfile.html"
        ovOverride = Except.ok entry ∧
      entry.label = "Custom" ∧ entry.description = "Desc." := by
  obtain ⟨entry, he, hl, _, _, hd⟩ :=
    override_precedence_claim fsOverride "root/docs" "docs" "myfile.html"
      ovOverride rawOverride ⟨some "Custom", none⟩ (by decide) (by decide)
  refine ⟨entry, he, hl "Custom" rfl, ?_⟩
  rw [hd rfl]
  decide

/-- C7: a name is in the scanner output exactly when the directory has an
immediate entry of that name that is a file and whose lowercased name ends
in `.html`; only immediate entries of the given directory are consulted. -/
theorem listHtmlFiles_claim (fs : FS) (dir : String) (nm : String) :
    nm ∈ listHtmlFiles fs dir ↔
      ∃ e ∈ fs.readdir dir, e.name = nm ∧ e.isFile = true ∧
        (lowerStr e.name).endsWith ".html" = true := by
  simp only [listHtmlFiles, List.mem_map, List.mem_filter]
  constructor
  · rintro ⟨e, ⟨he, hp⟩, rfl⟩
    have hp' := hp
    simp only [Bool.and_eq_true] at hp'
    exact ⟨e, he, rfl, hp'.1, hp'.2⟩
  · rintro ⟨e, he, rfl, hf, hh⟩
    exact ⟨e, ⟨he, by simp [hf, hh]⟩, rfl⟩

/-- C8: the produced byte payload is a function of the configuration and
the observed filesystem alone: two runs over filesystems that answer every
`stat`, `readdir` and `readFile` question identically produce identical
output. -/
theorem runBuild_deterministic (fs1 fs2 : FS) (config : Config)
    (h1 : fs1.stat = fs2.stat) (h2 : fs1.readdir = fs2.readdir)
    (h3 : fs1.readFile = fs2.readFile) :
    runBuild fs1 config = runBuild fs2 config := by
  have hfs : fs1 = fs2 := by
    cases fs1
    cases fs2
    simp_all
  rw [hfs]

/-- C8 witness: two separately constructed but observationally identical
filesystems give the same payload. -/
theorem runBuild_deterministic_witness :
    runBuild fsIdemA cfgIdem = runBuild fsIdemB cfgIdem :=
  runBuild_deterministic fsIdemA fsIdemB cfgIdem rfl rfl rfl

/-- C9: a `fileOrder` name that is not among the discovered files never
appears in the output, and deleting all such names from `fileOrder` does
not change the output at all; `orderFiles` is total, so no error arises. -/
theorem orderFiles_missing_claim (files ord : List String) (n : String)
    (h : n ∉ files) :
    n ∉ orderFiles files ord ∧
      orderFiles files ord =
        orderFiles files (ord.filter (fun m => decide (m ∈ files))) := by
  constructor
  · intro hmem
    simp only [orderFiles, List.mem_append] at hmem
    rcases hmem with h1 | h2
    · exact h (dedupAux_sub files [] n
        (pick_fst_sub ord (dedupFirst files) n h1))
    · have h2' : n ∈ (pickOrdered ord (dedupFirst files)).2 :=
        (List.perm_insertionSort _ _).mem_iff.mp h2
      exact h (dedupAux_sub files [] n
        (pick_snd_sub ord (dedupFirst files) n h2'))
  · simp only [orderFiles]
    rw [pick_filter files ord (dedupFirst files)
      (fun x hx => dedupAux_sub files [] x hx)]

/-- C9 witness: the name `ghost.html` listed in `fileOrder` but absent from
the discovered files is silently omitted. -/
theorem orderFiles_missing_claim_witness :
    "ghost.html" ∉ orderFiles ["a.html"] ["ghost.html", "a.html"] ∧
      orderFiles ["a.html"] ["ghost.html", "a.html"] =
        orderFiles ["a.html"] (["ghost.html", "a.html"].filter
          (fun m => decide (m ∈ ["a.html"]))) :=
  orderFiles_missing_claim ["a.html"] ["ghost.html", "a.html"] "ghost.html"
    (by decide)

/-- C10: the six replacements are sequential with the ampersand entity
first, so doubly encoded entities decode all the way to their characters
rather than to the literal entity text. -/
theorem decode_sequential_claim :
    decodeHtmlEntities "&amp;lt;" = "<" ∧
    decodeHtmlEntities "&amp;gt;" = ">" ∧
    decodeHtmlEntities "&amp;quot;" = "\"" ∧
    decodeHtmlEntities "&amp;#39;" = String.singleton (Char.ofNat 39) ∧
    decodeHtmlEntities "&amp;#96;" = "`" ∧
    decodeHtmlEntities "&amp;lt;" ≠ "&lt;" := by
  refine ⟨by decide, by decide, by decide, by decide, by decide, by decide⟩

/-- C7 witness: the scanner membership characterization instantiated on a
concrete directory listing. -/
theorem listHtmlFiles_claim_witness :
    "page.html" ∈ listHtmlFiles fsNoHeading "root/docs" ↔
      ∃ e ∈ fsNoHeading.readdir "root/docs", e.name = "page.html" ∧
        e.isFile = true ∧ (lowerStr e.name).endsWith ".html" = true :=
  listHtmlFiles_claim fsNoHeading "root/docs" "page.html"
